import Mathlib

/-!
Verification of the schema-to-layout compiler in
`src/components/DBTable/InnerFormSchemaUtils.js`.

The module consumes an ordered list of field descriptors and produces, in two
phases, an antd form layout: first a row/column plan packed greedily into rows
of 24 grid units, then (once the host framework supplies its field-registration
function `getFieldDecorator`) the final renderable structure.

The embedding below mirrors the source:
  * `FieldDescriptor` / `OptionEntry` model the schema entries (the attributes the module
    reads: `key`, `title`, `showType`, `dataType`, `options`, and the three
    placeholder hints).
  * `Widget` and `Node` form a deep embedding of the JSX trees the module
    builds (`Form`, `Row`, `Col`, `FormItem`, the `div` wrapper, and the leaf
    input widgets).  Constant attributes that are identical on every
    occurrence of a widget (e.g. `size="default"`) are not recorded.
  * `Gfd` is the type of the registration function `getFieldDecorator`: the
    module only ever calls it as `getFieldDecorator(key)(element)`, so it is a
    function from a key and a widget to a rendered node.  `mkTag` is the
    canonical registration function that records the call in the tree.
  * In the source, `parse` pushes the closure `transform*(field)` into `cols`
    during the packing loop and invokes it at render time; `transform*` is a
    pure function of the field, so the embedding records the field in the row
    plan (`parseRows`) and applies `transformField` in the render stage
    (`renderCols`), which is extensionally the same program.
  * `transformBetween` on an unrecognized `dataType` logs an error and returns
    `null` (JS); `parse` still pushes that `null` into the row, and the
    returned render closure later calls `col(getFieldDecorator)` on it, a
    TypeError.  The embedding models the `null` as `none` and the render-time
    crash as the render function returning `none`.
-/

/-- One entry of a `field.options` list: `{key, value}`. -/
structure OptionEntry where
  key : String
  value : String
  deriving DecidableEq, Repr

/-- One schema entry, with the attributes `InnerFormSchemaUtils` reads.
Absent (JS `undefined`) optional attributes are `none`. -/
structure FieldDescriptor where
  key : String
  title : String
  showType : String
  dataType : String
  options : List OptionEntry
  placeholder : Option String
  placeholderBegin : Option String
  placeholderEnd : Option String
  deriving DecidableEq, Repr

/-- JS `x || dflt` on an optional string: `undefined`/`null` and the empty
string are falsy, anything else is returned unchanged. -/
def jsOr : Option String → String → String
  | none, dflt => dflt
  | some s, dflt => if s = "" then dflt else s

/-- Leaf input widgets produced by the transform functions.  Option lists are
`(value, label)` pairs in schema order, except `checkboxGroup`, whose source
builds `{label: option.value, value: option.key}` objects, recorded here as
`(label, value)` pairs. -/
inductive Widget where
  | select (multiple : Bool) (placeholder : String) (opts : List (String × String))
  | radioGroup (opts : List (String × String))
  | checkboxGroup (opts : List (String × String))
  | inputNumber (stepAttr : Option String) (placeholder : Option String)
  | datePicker (fmt : String) (placeholder : String)
  | textInput (placeholder : Option String)
  deriving DecidableEq, Repr

/-- Deep embedding of the JSX trees the module builds.  `registered k w` is
the result of `getFieldDecorator(k)(w)` under the canonical registration
function `mkTag`. -/
inductive Node where
  | form (rows : List Node)
  | row (key : Option Nat) (gutter : Option Nat) (cols : List Node)
  | col (key : Option String) (sm : Option Nat) (spn : Option Nat) (off : Option Nat)
      (children : List Node)
  | formItem (key : String) (label : Option String) (labelCol : Nat) (wrapperCol : Nat)
      (child : Node)
  | div (key : String) (children : List Node)
  | registered (regKey : String) (w : Widget)
  deriving Repr

/-- The registration function `getFieldDecorator`, as the module uses it:
`getFieldDecorator(key)(element)`. -/
abbrev Gfd := String → Widget → Node

/-- The canonical registration function: record the registration call in the
tree. -/
def mkTag : Gfd := fun k w => Node.registered k w

namespace SchemaUtils

/-- Lines 44-47 of `parse`: the width a field occupies in a 24-unit row:
16 for `between`/`datetime`, 8 for everything else. -/
def widthOf (field : FieldDescriptor) : Int :=
  if field.showType = "between" ∧ field.dataType = "datetime" then 16 else 8

/-- `colWrapper`: wrap a form item in a `Col sm={8}` / `FormItem` pair keyed by
the field's key and labelled with its title. -/
def colWrapper (formItem : Gfd → Node) (field : FieldDescriptor) : Gfd → Node :=
  fun g =>
    Node.col (some field.key) (some 8) none none
      [Node.formItem field.key (some field.title) 10 14 (formItem g)]

/-- `transformSelect`: a single-choice dropdown over the field's options,
registered under the field's key. -/
def transformSelect (field : FieldDescriptor) : Gfd → Node :=
  colWrapper
    (fun g =>
      g field.key
        (Widget.select false (jsOr field.placeholder "请选择")
          (field.options.map fun o => (o.key, o.value))))
    field

/-- `transformRadio`: an exclusive-choice radio group over the field's
options. -/
def transformRadio (field : FieldDescriptor) : Gfd → Node :=
  colWrapper
    (fun g =>
      g field.key (Widget.radioGroup (field.options.map fun o => (o.key, o.value))))
    field

/-- `transformCheckbox`: a checkbox group whose options transpose the schema
options into `{label: value, value: key}`. -/
def transformCheckbox (field : FieldDescriptor) : Gfd → Node :=
  colWrapper
    (fun g =>
      g field.key (Widget.checkboxGroup (field.options.map fun o => (o.value, o.key))))
    field

/-- `transformMultiSelect`: a multiple-choice dropdown over the field's
options. -/
def transformMultiSelect (field : FieldDescriptor) : Gfd → Node :=
  colWrapper
    (fun g =>
      g field.key
        (Widget.select true (jsOr field.placeholder "请选择")
          (field.options.map fun o => (o.key, o.value))))
    field

/-- `transformNormal`: the default branch of the dispatch, switching on
`dataType`. -/
def transformNormal (field : FieldDescriptor) : Gfd → Node :=
  if field.dataType = "int" then
    colWrapper (fun g => g field.key (Widget.inputNumber none none)) field
  else if field.dataType = "float" then
    colWrapper (fun g => g field.key (Widget.inputNumber (some "0.01") none)) field
  else if field.dataType = "datetime" then
    colWrapper
      (fun g =>
        g field.key
          (Widget.datePicker "YYYY-MM-DD HH:mm:ss" (jsOr field.placeholder "请选择日期")))
      field
  else
    colWrapper (fun g => g field.key (Widget.textInput field.placeholder)) field

/-- `betweenColWrapper`: begin and end form items nested side by side (an
inner `Row` with a 16-unit and an offset 7-unit `Col`) inside one outer
`Col sm={8}` cell keyed `key ++ "Begin"`. -/
def betweenColWrapper (beginFormItem endFormItem : Gfd → Node) (field : FieldDescriptor) :
    Gfd → Node :=
  fun g =>
    Node.col (some (field.key ++ "Begin")) (some 8) none none
      [Node.row none none
        [Node.col none none (some 16) none
          [Node.formItem (field.key ++ "Begin") (some field.title) 15 9 (beginFormItem g)],
         Node.col none none (some 7) (some 1)
          [Node.formItem (field.key ++ "End") none 10 14 (endFormItem g)]]]

/-- `transformBetween`: dispatch on `dataType`; `int`/`float` produce two
numeric inputs through `betweenColWrapper`, `datetime` produces two
full-width `Col` cells inside a `div` keyed `"datetimeBetweenDiv"`, and any
other `dataType` logs an error and returns `null` (modelled as `none`). -/
def transformBetween (field : FieldDescriptor) : Option (Gfd → Node) :=
  if field.dataType = "int" then
    some (betweenColWrapper
      (fun g =>
        g (field.key ++ "Begin")
          (Widget.inputNumber none (some (jsOr field.placeholderBegin "最小值"))))
      (fun g =>
        g (field.key ++ "End")
          (Widget.inputNumber none (some (jsOr field.placeholderEnd "最大值"))))
      field)
  else if field.dataType = "float" then
    some (betweenColWrapper
      (fun g =>
        g (field.key ++ "Begin")
          (Widget.inputNumber (some "0.01") (some (jsOr field.placeholderBegin "最小值"))))
      (fun g =>
        g (field.key ++ "End")
          (Widget.inputNumber (some "0.01") (some (jsOr field.placeholderEnd "最大值"))))
      field)
  else if field.dataType = "datetime" then
    some (fun g =>
      Node.div "datetimeBetweenDiv"
        [Node.col (some (field.key ++ "Begin")) (some 8) none none
          [Node.formItem (field.key ++ "Begin") (some field.title) 10 14
            (g (field.key ++ "Begin")
              (Widget.datePicker "YYYY-MM-DD HH:mm:ss"
                (jsOr field.placeholderBegin "开始日期")))],
         Node.col (some (field.key ++ "End")) (some 8) none none
          [Node.formItem (field.key ++ "End") none 10 14
            (g (field.key ++ "End")
              (Widget.datePicker "YYYY-MM-DD HH:mm:ss"
                (jsOr field.placeholderEnd "结束日期")))]])
  else
    none

/-- Lines 57-75 of `parse`: the `showType` switch that picks the transform for
a field.  A non-`between` field always yields a producer; a `between` field
with an unrecognized `dataType` yields `none` (the JS `null`). -/
def transformField (field : FieldDescriptor) : Option (Gfd → Node) :=
  if field.showType = "select" then some (transformSelect field)
  else if field.showType = "radio" then some (transformRadio field)
  else if field.showType = "checkbox" then some (transformCheckbox field)
  else if field.showType = "multiSelect" then some (transformMultiSelect field)
  else if field.showType = "between" then transformBetween field
  else some (transformNormal field)

/-- The mutable loop state of `parse`: the closed rows, the current row
buffer, and the remaining capacity of the current row. -/
structure ParseState where
  rows : List (List FieldDescriptor)
  cols : List FieldDescriptor
  spaceLeft : Int
  deriving DecidableEq, Repr

/-- One iteration of the `schema.forEach` loop in `parse` (lines 42-78): if
the current row cannot fit the field, close it and open a fresh one; then push
the field and deduct its width. -/
def parseStep (st : ParseState) (field : FieldDescriptor) : ParseState :=
  let spaceNeed := widthOf field
  let st' :=
    if st.spaceLeft < spaceNeed then ParseState.mk (st.rows ++ [st.cols]) [] 24 else st
  ParseState.mk st'.rows (st'.cols ++ [field]) (st'.spaceLeft - spaceNeed)

/-- The packing phase of `parse` (lines 36-83): fold the loop over the schema
and close the last row if it is non-empty.  Each row records the fields whose
transformed producers the source stores. -/
def parseRows (schema : List FieldDescriptor) : List (List FieldDescriptor) :=
  let st := List.foldl parseStep (ParseState.mk [] [] 24) schema
  if st.cols.length > 0 then st.rows ++ [st.cols] else st.rows

/-- Render one row buffer: invoke each stored producer on the registration
function.  A `none` producer (the JS `null` pushed for a bad `between` field)
makes the whole render fail, modelling the TypeError of calling `null`. -/
def renderCols : List FieldDescriptor → Gfd → Option (List Node)
  | [], _ => some []
  | f :: fs, g =>
    match transformField f, renderCols fs g with
    | some p, some ns => some (p g :: ns)
    | _, _ => none

/-- Render the rows in order, giving row `i` the key `i` and `gutter={16}`
(lines 88-95). -/
def renderRows : Nat → List (List FieldDescriptor) → Gfd → Option (List Node)
  | _, [], _ => some []
  | i, r :: rs, g =>
    match renderCols r g, renderRows (i + 1) rs g with
    | some ns, some rest => some (Node.row (some i) (some 16) ns :: rest)
    | _, _ => none

/-- `parse` composed with the closure it returns: given the registration
function, produce the `Form` of rendered rows (or `none` when the render
closure would crash on a `null` column). -/
def parse (schema : List FieldDescriptor) : Gfd → Option Node :=
  fun g => (renderRows 0 (parseRows schema) g).map Node.form

/-- Total width, in grid units, occupied by a row of fields. -/
def rowWidth (r : List FieldDescriptor) : Int :=
  (r.map widthOf).sum

/-- Invariant carried through the packing loop for the capacity claim: every
closed row fits in 24 units, the open row occupies exactly the space already
deducted, and the remaining space is never negative. -/
def packInv (st : ParseState) : Prop :=
  (∀ r ∈ st.rows, rowWidth r ≤ 24) ∧ rowWidth st.cols = 24 - st.spaceLeft ∧ 0 ≤ st.spaceLeft

/-- Invariant carried through the packing loop when every field is 8 units
wide: closed rows hold exactly 3 fields, the open row holds at most 3, the
remaining space matches the open row, and rows are only ever closed after the
open row has been fed. -/
def uniformInv (st : ParseState) : Prop :=
  (∀ r ∈ st.rows, r.length = 3) ∧ st.cols.length ≤ 3 ∧
    st.spaceLeft = 24 - 8 * st.cols.length ∧ (st.cols = [] → st.rows = [])

/-- Invariant carried through the packing loop for the non-empty-rows claim:
closed rows are non-empty, and while the open row is empty the full 24 units
are still available, so the close-row branch cannot fire on it. -/
def rowsNeInv (st : ParseState) : Prop :=
  (∀ r ∈ st.rows, r ≠ []) ∧ (st.cols = [] → st.spaceLeft = 24)

end SchemaUtils

mutual

/-- The registration keys recorded in a rendered tree, in rendering order:
exactly the keys the form passes to the registration function when it is
rendered with `mkTag`. -/
def regKeysNode : Node → List String
  | .form rows => regKeysList rows
  | .row _ _ cols => regKeysList cols
  | .col _ _ _ _ children => regKeysList children
  | .formItem _ _ _ _ child => regKeysNode child
  | .div _ children => regKeysList children
  | .registered k _ => [k]

/-- Registration keys of a list of nodes, left to right. -/
def regKeysList : List Node → List String
  | [] => []
  | n :: ns => regKeysNode n ++ regKeysList ns

end

/-- The key of the outermost container element of a rendered cell, when it has
one. -/
def containerKey : Node → Option String
  | .form _ => none
  | .row k _ _ => k.map toString
  | .col k _ _ _ _ => k
  | .formItem k _ _ _ _ => some k
  | .div k _ => some k
  | .registered _ _ => none

/-- The registration keys the spec promises for one field: `key ++ "Begin"`
and `key ++ "End"` for a `between` field, the key itself otherwise. -/
def regKeysOfField (f : FieldDescriptor) : List String :=
  if f.showType = "between" then [f.key ++ "Begin", f.key ++ "End"] else [f.key]

/-- The registration keys the spec promises for a schema, in schema order. -/
def expectedKeys (schema : List FieldDescriptor) : List String :=
  schema.flatMap regKeysOfField

/-- Concrete fields used by the witnesses: plain text fields, a
`between`/`datetime` field, a `between`/`int` field, a select field, and a
`between` field with an unrecognized `dataType`. -/
def fText (k : String) : FieldDescriptor := ⟨k, "T" ++ k, "", "varchar", [], none, none, none⟩

def fBetweenDt (k : String) : FieldDescriptor :=
  ⟨k, "T" ++ k, "between", "datetime", [], none, none, none⟩

def fBetweenInt (k : String) : FieldDescriptor :=
  ⟨k, "T" ++ k, "between", "int", [], none, none, none⟩

def fSelectAB : FieldDescriptor :=
  ⟨"f", "F", "select", "varchar", [⟨"a", "A"⟩, ⟨"b", "B"⟩], none, none, none⟩

def fBetweenBad (k : String) : FieldDescriptor :=
  ⟨k, "T" ++ k, "between", "unknown", [], none, none, none⟩

/-- The rendered form for the two-field schema used to instantiate
`c5_registration_keys`: a text field keyed `name` and a `between`/`int` field
keyed `age`. -/
def c5SampleNode : Node :=
  Node.form
    [Node.row (some 0) (some 16)
      [Node.col (some "name") (some 8) none none
        [Node.formItem "name" (some "Tname") 10 14
          (Node.registered "name" (Widget.textInput none))],
       Node.col (some "ageBegin") (some 8) none none
        [Node.row none none
          [Node.col none none (some 16) none
            [Node.formItem "ageBegin" (some "Tage") 15 9
              (Node.registered "ageBegin" (Widget.inputNumber none (some "最小值")))],
           Node.col none none (some 7) (some 1)
            [Node.formItem "ageEnd" none 10 14
              (Node.registered "ageEnd" (Widget.inputNumber none (some "最大值")))]]]]]

namespace SchemaUtils

theorem widthOf_eq_or (f : FieldDescriptor) : widthOf f = 8 ∨ widthOf f = 16 := by
  unfold widthOf
  split <;> simp

theorem widthOf_le (f : FieldDescriptor) : widthOf f ≤ 24 := by
  rcases widthOf_eq_or f with h | h <;> omega

theorem widthOf_pos (f : FieldDescriptor) : 0 < widthOf f := by
  rcases widthOf_eq_or f with h | h <;> omega

theorem rowWidth_append (r : List FieldDescriptor) (f : FieldDescriptor) :
    rowWidth (r ++ [f]) = rowWidth r + widthOf f := by
  simp [rowWidth]

theorem parseStep_packInv (st : ParseState) (f : FieldDescriptor) (h : packInv st) :
    packInv (parseStep st f) := by
  obtain ⟨hrows, hcols, hleft⟩ := h
  have hw := widthOf_le f
  have hwpos := widthOf_pos f
  simp only [parseStep, packInv]
  split
  · refine ⟨?_, ?_, ?_⟩
    · intro r hr
      rcases List.mem_append.1 hr with hr | hr
      · exact hrows r hr
      · rcases List.mem_singleton.1 hr with rfl
        omega
    · simp [rowWidth]
    · simp; omega
  · rename_i hfit
    refine ⟨hrows, ?_, ?_⟩
    · simp [rowWidth_append]; omega
    · simp; omega

theorem foldl_packInv (schema : List FieldDescriptor) (st : ParseState) (h : packInv st) :
    packInv (List.foldl parseStep st schema) := by
  induction schema generalizing st with
  | nil => exact h
  | cons f fs ih => exact ih (parseStep st f) (parseStep_packInv st f h)

theorem parseRows_rowWidth_le (schema : List FieldDescriptor) :
    ∀ r ∈ parseRows schema, rowWidth r ≤ 24 := by
  have h0 : packInv (ParseState.mk [] [] 24) := by
    refine ⟨by simp, by simp [rowWidth], by norm_num⟩
  have h := foldl_packInv schema (ParseState.mk [] [] 24) h0
  obtain ⟨hrows, hcols, hleft⟩ := h
  intro r hr
  simp only [parseRows] at hr
  split at hr
  · rcases List.mem_append.1 hr with hr | hr
    · exact hrows r hr
    · rcases List.mem_singleton.1 hr with rfl
      omega
  · exact hrows r hr

end SchemaUtils

open SchemaUtils

/-- C1: in the layout plan produced by `parse`, the total occupied width of
every row (16 units for a `between`/`datetime` field, 8 for every other
field) never exceeds 24 units; and a field whose width exceeds the remaining
capacity of the current row closes that row and is placed alone at the start
of a fresh row rather than overflowing the current one. -/
theorem c1_row_capacity :
    (∀ (schema : List FieldDescriptor), ∀ r ∈ parseRows schema, rowWidth r ≤ 24) ∧
    (∀ (st : ParseState) (f : FieldDescriptor), st.spaceLeft < widthOf f →
      parseStep st f = ParseState.mk (st.rows ++ [st.cols]) [f] (24 - widthOf f)) := by
  constructor
  · exact parseRows_rowWidth_le
  · intro st f h
    simp only [parseStep]
    rw [if_pos h]
    simp

/-- Concrete instantiation of `c1_row_capacity`: a row of the plan for a
two-field schema, and a step that overflows a row with 8 units left. -/
theorem c1_row_capacity_witness :
    rowWidth [FieldDescriptor.mk "a" "A" "select" "varchar" [] none none none,
       FieldDescriptor.mk "b" "B" "between" "datetime" [] none none none] ≤ 24 ∧
    parseStep (ParseState.mk [] [FieldDescriptor.mk "a" "A" "select" "varchar" [] none none none,
        FieldDescriptor.mk "b" "B" "between" "datetime" [] none none none] 0)
      (FieldDescriptor.mk "c" "C" "" "varchar" [] none none none) =
      ParseState.mk [[FieldDescriptor.mk "a" "A" "select" "varchar" [] none none none,
        FieldDescriptor.mk "b" "B" "between" "datetime" [] none none none]]
        [FieldDescriptor.mk "c" "C" "" "varchar" [] none none none] 16 := by
  constructor
  · exact c1_row_capacity.1
      [FieldDescriptor.mk "a" "A" "select" "varchar" [] none none none,
       FieldDescriptor.mk "b" "B" "between" "datetime" [] none none none]
      [FieldDescriptor.mk "a" "A" "select" "varchar" [] none none none,
       FieldDescriptor.mk "b" "B" "between" "datetime" [] none none none]
      (by decide)
  · exact c1_row_capacity.2
      (ParseState.mk [] [FieldDescriptor.mk "a" "A" "select" "varchar" [] none none none,
        FieldDescriptor.mk "b" "B" "between" "datetime" [] none none none] 0)
      (FieldDescriptor.mk "c" "C" "" "varchar" [] none none none)
      (by decide)

/-- C2: `parse` assigns a field a width of exactly 16 units iff its `showType`
is `between` and its `dataType` is `datetime`; every other combination gets
exactly 8 units; and no attribute other than `showType` and `dataType`
influences the width. -/
theorem c2_width_rule :
    ∀ f : FieldDescriptor,
      (widthOf f = 16 ↔ f.showType = "between" ∧ f.dataType = "datetime") ∧
      (¬(f.showType = "between" ∧ f.dataType = "datetime") → widthOf f = 8) ∧
      (∀ g : FieldDescriptor, f.showType = g.showType → f.dataType = g.dataType →
        widthOf f = widthOf g) := by
  intro f
  refine ⟨?_, ?_, ?_⟩
  · unfold widthOf
    split
    · simp_all
    · simp_all
  · intro h
    unfold widthOf
    rw [if_neg h]
  · intro g hs hd
    unfold widthOf
    rw [hs, hd]

/-- Concrete instantiation of `c2_width_rule`: an 8-unit field and an
attribute-independence comparison. -/
theorem c2_width_rule_witness :
    (¬(("select" : String) = "between" ∧ ("varchar" : String) = "datetime") →
      widthOf (FieldDescriptor.mk "a" "A" "select" "varchar" [] none none none) = 8) ∧
    widthOf (FieldDescriptor.mk "a" "A" "select" "varchar" [] none none none) = 8 ∧
    widthOf (FieldDescriptor.mk "x" "X" "between" "datetime" [] none none none) =
      widthOf (FieldDescriptor.mk "y" "Y" "between" "datetime" [⟨"k", "v"⟩] (some "p") none none) := by
  refine ⟨(c2_width_rule (FieldDescriptor.mk "a" "A" "select" "varchar" [] none none none)).2.1, ?_, ?_⟩
  · exact (c2_width_rule (FieldDescriptor.mk "a" "A" "select" "varchar" [] none none none)).2.1
      (by decide)
  · exact (c2_width_rule (FieldDescriptor.mk "x" "X" "between" "datetime" [] none none none)).2.2
      (FieldDescriptor.mk "y" "Y" "between" "datetime" [⟨"k", "v"⟩] (some "p") none none) rfl rfl

namespace SchemaUtils

theorem foldl_flatten (schema : List FieldDescriptor) (st : ParseState) :
    (List.foldl parseStep st schema).rows.flatten ++ (List.foldl parseStep st schema).cols =
      st.rows.flatten ++ st.cols ++ schema := by
  induction schema generalizing st with
  | nil => simp
  | cons f fs ih =>
    rw [List.foldl_cons, ih]
    simp only [parseStep]
    split <;> simp

/-- The packing loop preserves the schema's fields and their order: the rows
of the plan flatten back to the schema. -/
theorem parseRows_flatten (schema : List FieldDescriptor) :
    (parseRows schema).flatten = schema := by
  have h := foldl_flatten schema (ParseState.mk [] [] 24)
  simp only [List.flatten_nil, List.nil_append] at h
  simp only [parseRows]
  split
  · rw [List.flatten_append]
    simpa using h
  · rename_i hc
    have hcols : (List.foldl parseStep (ParseState.mk [] [] 24) schema).cols = [] := by
      simpa using hc
    rw [hcols, List.append_nil] at h
    exact h

theorem parseStep_uniformInv (st : ParseState) (f : FieldDescriptor)
    (hw : widthOf f = 8) (h : uniformInv st) : uniformInv (parseStep st f) := by
  obtain ⟨hrows, hlen, hleft, hne⟩ := h
  simp only [parseStep, uniformInv, hw]
  split
  · rename_i hcond
    have h3 : st.cols.length = 3 := by omega
    refine ⟨?_, by simp, by simp, by simp⟩
    intro r hr
    rcases List.mem_append.1 hr with hr | hr
    · exact hrows r hr
    · rcases List.mem_singleton.1 hr with rfl
      exact h3
  · rename_i hcond
    have hle : st.cols.length ≤ 2 := by omega
    refine ⟨hrows, by simp; omega, by simp; omega, by simp⟩

theorem foldl_uniformInv (schema : List FieldDescriptor) :
    ∀ st : ParseState, (∀ f ∈ schema, widthOf f = 8) → uniformInv st →
    uniformInv (List.foldl parseStep st schema) := by
  induction schema with
  | nil => exact fun st _ h => h
  | cons f fs ih =>
    intro st hw h
    exact ih (parseStep st f) (fun x hx => hw x (List.mem_cons_of_mem f hx))
      (parseStep_uniformInv st f (hw f (List.mem_cons_self f fs)) h)

theorem parseStep_rowsNeInv (st : ParseState) (f : FieldDescriptor) (h : rowsNeInv st) :
    rowsNeInv (parseStep st f) := by
  obtain ⟨hrows, hcols⟩ := h
  simp only [parseStep, rowsNeInv]
  split
  · rename_i hcond
    refine ⟨?_, by simp⟩
    intro r hr
    rcases List.mem_append.1 hr with hr | hr
    · exact hrows r hr
    · rcases List.mem_singleton.1 hr with rfl
      intro hemp
      have h24 := hcols hemp
      have hle := widthOf_le f
      omega
  · exact ⟨hrows, by simp⟩

theorem foldl_rowsNeInv (schema : List FieldDescriptor) (st : ParseState)
    (h : rowsNeInv st) : rowsNeInv (List.foldl parseStep st schema) := by
  induction schema generalizing st with
  | nil => exact h
  | cons f fs ih => exact ih (parseStep st f) (parseStep_rowsNeInv st f h)

end SchemaUtils

/-- C3: when no field is `between`/`datetime` (so every field takes 8 units),
`parse` groups the fields into rows of exactly 3 columns, except that the
final row may hold fewer (1 to 3), and the fields appear in the plan in their
original schema order. -/
theorem c3_uniform_rows (schema : List FieldDescriptor)
    (h : ∀ f ∈ schema, ¬(f.showType = "between" ∧ f.dataType = "datetime")) :
    (parseRows schema).flatten = schema ∧
    (∀ r ∈ (parseRows schema).dropLast, r.length = 3) ∧
    (∀ r, (parseRows schema).getLast? = some r → 1 ≤ r.length ∧ r.length ≤ 3) := by
  have hw : ∀ f ∈ schema, widthOf f = 8 := by
    intro f hf
    unfold widthOf
    rw [if_neg (h f hf)]
  have h0 : uniformInv (ParseState.mk [] [] 24) := ⟨by simp, by simp, by simp, by simp⟩
  obtain ⟨hrows, hlen, hleft, hne⟩ := foldl_uniformInv schema (ParseState.mk [] [] 24) hw h0
  refine ⟨parseRows_flatten schema, ?_, ?_⟩
  · intro r hr
    simp only [parseRows] at hr
    split at hr
    · rw [List.dropLast_concat] at hr
      exact hrows r hr
    · rename_i hc
      have hcols : (List.foldl parseStep (ParseState.mk [] [] 24) schema).cols = [] := by
        simpa using hc
      rw [hne hcols] at hr
      simp at hr
  · intro r hr
    simp only [parseRows] at hr
    split at hr
    · rename_i hc
      rw [List.getLast?_concat] at hr
      obtain rfl : (List.foldl parseStep (ParseState.mk [] [] 24) schema).cols = r :=
        Option.some.inj hr
      exact ⟨by omega, hlen⟩
    · rename_i hc
      have hcols : (List.foldl parseStep (ParseState.mk [] [] 24) schema).cols = [] := by
        simpa using hc
      rw [hne hcols] at hr
      simp at hr

/-- Concrete instantiation of `c3_uniform_rows` on a four-field all-text
schema. -/
theorem c3_uniform_rows_witness :
    (parseRows [fText "a", fText "b", fText "c", fText "d"]).flatten =
        [fText "a", fText "b", fText "c", fText "d"] ∧
    (∀ r ∈ (parseRows [fText "a", fText "b", fText "c", fText "d"]).dropLast, r.length = 3) ∧
    (∀ r, (parseRows [fText "a", fText "b", fText "c", fText "d"]).getLast? = some r →
      1 ≤ r.length ∧ r.length ≤ 3) :=
  c3_uniform_rows [fText "a", fText "b", fText "c", fText "d"] (by decide)

/-- C8: every row the packing phase of `parse` appends to the layout plan is
non-empty: a fresh row always has 24 units available, more than the largest
field width (16), so the close-row branch never fires on an empty row
buffer. -/
theorem c8_rows_nonempty :
    ∀ (schema : List FieldDescriptor), ∀ r ∈ parseRows schema, r ≠ [] := by
  intro schema r hr
  obtain ⟨hrows, hcols⟩ :=
    foldl_rowsNeInv schema (ParseState.mk [] [] 24) ⟨by simp, by simp⟩
  simp only [parseRows] at hr
  split at hr
  · rename_i hc
    rcases List.mem_append.1 hr with hr | hr
    · exact hrows r hr
    · rcases List.mem_singleton.1 hr with rfl
      intro hemp
      rw [hemp] at hc
      simp at hc
  · exact hrows r hr

/-- Concrete instantiation of `c8_rows_nonempty`: the second row of a
four-field plan. -/
theorem c8_rows_nonempty_witness :
    [fText "d"] ≠ ([] : List FieldDescriptor) :=
  c8_rows_nonempty [fText "a", fText "b", fText "c", fText "d"] [fText "d"] (by decide)

namespace SchemaUtils

theorem transformField_none_of_bad (f : FieldDescriptor) (hs : f.showType = "between")
    (h1 : f.dataType ≠ "int") (h2 : f.dataType ≠ "float") (h3 : f.dataType ≠ "datetime") :
    transformField f = none := by
  simp [transformField, transformBetween, hs, h1, h2, h3]

theorem renderCols_cons (f : FieldDescriptor) (fs : List FieldDescriptor) (g : Gfd) :
    renderCols (f :: fs) g =
      match transformField f, renderCols fs g with
      | some p, some ns => some (p g :: ns)
      | _, _ => none := rfl

theorem renderRows_cons (i : Nat) (r : List FieldDescriptor)
    (rs : List (List FieldDescriptor)) (g : Gfd) :
    renderRows i (r :: rs) g =
      match renderCols r g, renderRows (i + 1) rs g with
      | some ns, some rest => some (Node.row (some i) (some 16) ns :: rest)
      | _, _ => none := rfl

theorem renderCols_none (cols : List FieldDescriptor) (g : Gfd) (f : FieldDescriptor)
    (hf : f ∈ cols) (hnone : transformField f = none) : renderCols cols g = none := by
  induction cols with
  | nil => cases hf
  | cons x xs ih =>
    rw [renderCols_cons]
    rcases List.mem_cons.1 hf with rfl | hf
    · rw [hnone]
    · rw [ih hf]
      cases transformField x <;> rfl

theorem renderRows_none (rows : List (List FieldDescriptor)) :
    ∀ (i : Nat) (g : Gfd) (r : List FieldDescriptor), r ∈ rows → renderCols r g = none →
    renderRows i rows g = none := by
  induction rows with
  | nil => intro i g r hr; cases hr
  | cons x xs ih =>
    intro i g r hr hnone
    rw [renderRows_cons]
    rcases List.mem_cons.1 hr with rfl | hr
    · rw [hnone]
    · rw [ih (i + 1) g r hr hnone]
      cases renderCols x g <;> rfl

end SchemaUtils

/-- C9: a `between` field with a `dataType` other than `int`, `float` or
`datetime` still takes the normal 8 units of row capacity and keeps its place
in the layout plan (`parse` itself returns normally), but the returned render
function is not total: for every registration function it hits the `null`
column producer stored for that field (modelled as the render returning
`none`). -/
theorem c9_null_producer (schema : List FieldDescriptor) (f : FieldDescriptor)
    (hmem : f ∈ schema) (hs : f.showType = "between") (h1 : f.dataType ≠ "int")
    (h2 : f.dataType ≠ "float") (h3 : f.dataType ≠ "datetime") :
    widthOf f = 8 ∧ f ∈ (parseRows schema).flatten ∧ ∀ g : Gfd, parse schema g = none := by
  refine ⟨?_, ?_, ?_⟩
  · unfold widthOf
    rw [if_neg (fun hc => h3 hc.2)]
  · rw [parseRows_flatten]
    exact hmem
  · intro g
    have hmem' : f ∈ (parseRows schema).flatten := by
      rw [parseRows_flatten]; exact hmem
    obtain ⟨r, hr, hfr⟩ := List.mem_flatten.1 hmem'
    have hc : renderCols r g = none :=
      renderCols_none r g f hfr (transformField_none_of_bad f hs h1 h2 h3)
    have hrr : renderRows 0 (parseRows schema) g = none :=
      renderRows_none (parseRows schema) 0 g r hr hc
    simp [parse, hrr]

/-- Concrete instantiation of `c9_null_producer`: a two-field schema whose
first field is a `between` field with `dataType: "unknown"`. -/
theorem c9_null_producer_witness :
    widthOf (fBetweenBad "x") = 8 ∧
    fBetweenBad "x" ∈ (parseRows [fBetweenBad "x", fText "y"]).flatten ∧
    ∀ g : Gfd, parse [fBetweenBad "x", fText "y"] g = none :=
  c9_null_producer [fBetweenBad "x", fText "y"] (fBetweenBad "x") (by decide)
    rfl (by decide) (by decide) (by decide)

/-- C4 concerns the spec's claim that a `between` field with an unrecognized
`dataType` is silently dropped while the rest of the form still renders.  The
code instead pushes the `null` returned by `transformBetween` into the row and
the render closure later invokes it: at the failing input below the packing
still contains both fields, but rendering fails (the JS TypeError, modelled as
`none`) instead of producing a form with the remaining field's widget. -/
theorem c4_bad_between_breaks_render :
    transformBetween (fBetweenBad "x") = none ∧
    parseRows [fBetweenBad "x", fText "y"] = [[fBetweenBad "x", fText "y"]] ∧
    parse [fBetweenBad "x", fText "y"] mkTag = none := by
  refine ⟨rfl, rfl, rfl⟩

/-- C6: `parse` on the single-field schema with `showType: "select"` and
options `[{key:"a",value:"A"},{key:"b",value:"B"}]` yields one row with one
cell whose widget is a single-choice dropdown registered under the field's
key, offering exactly the options labelled `A` (value `a`) and `B` (value
`b`), in that order. -/
theorem c6_single_select :
    parse [fSelectAB] mkTag =
      some (Node.form
        [Node.row (some 0) (some 16)
          [Node.col (some "f") (some 8) none none
            [Node.formItem "f" (some "F") 10 14
              (Node.registered "f"
                (Widget.select false "请选择" [("a", "A"), ("b", "B")]))]]]) := rfl

/-- C7: rendering of `between` fields.  For `dataType` `int` or `float` the
output is one outer `Col sm={8}` cell containing (through a nested `Row`) the
begin and end numeric inputs side by side, registered under the key suffixed
`Begin` and `End`.  For `dataType` `datetime` the output is a `div` whose
children are two top-level full-width `Col sm={8}` cells, one date-time
picker each, not nested inside any single cell.  The final conjunct shows
this is the only variant producing two top-level cells: every producer for a
non-`between`/`datetime` field renders a single outer `Col sm={8}` cell. -/
theorem c7_between_variants :
    ∀ (f : FieldDescriptor) (g : Gfd),
    (f.showType = "between" →
    (f.dataType = "int" →
      (transformField f).map (fun p => p g) =
        some (Node.col (some (f.key ++ "Begin")) (some 8) none none
          [Node.row none none
            [Node.col none none (some 16) none
              [Node.formItem (f.key ++ "Begin") (some f.title) 15 9
                (g (f.key ++ "Begin")
                  (Widget.inputNumber none (some (jsOr f.placeholderBegin "最小值"))))],
             Node.col none none (some 7) (some 1)
              [Node.formItem (f.key ++ "End") none 10 14
                (g (f.key ++ "End")
                  (Widget.inputNumber none (some (jsOr f.placeholderEnd "最大值"))))]]])) ∧
    (f.dataType = "float" →
      (transformField f).map (fun p => p g) =
        some (Node.col (some (f.key ++ "Begin")) (some 8) none none
          [Node.row none none
            [Node.col none none (some 16) none
              [Node.formItem (f.key ++ "Begin") (some f.title) 15 9
                (g (f.key ++ "Begin")
                  (Widget.inputNumber (some "0.01")
                    (some (jsOr f.placeholderBegin "最小值"))))],
             Node.col none none (some 7) (some 1)
              [Node.formItem (f.key ++ "End") none 10 14
                (g (f.key ++ "End")
                  (Widget.inputNumber (some "0.01")
                    (some (jsOr f.placeholderEnd "最大值"))))]]])) ∧
    (f.dataType = "datetime" →
      (transformField f).map (fun p => p g) =
        some (Node.div "datetimeBetweenDiv"
          [Node.col (some (f.key ++ "Begin")) (some 8) none none
            [Node.formItem (f.key ++ "Begin") (some f.title) 10 14
              (g (f.key ++ "Begin")
                (Widget.datePicker "YYYY-MM-DD HH:mm:ss"
                  (jsOr f.placeholderBegin "开始日期")))],
           Node.col (some (f.key ++ "End")) (some 8) none none
            [Node.formItem (f.key ++ "End") none 10 14
              (g (f.key ++ "End")
                (Widget.datePicker "YYYY-MM-DD HH:mm:ss"
                  (jsOr f.placeholderEnd "结束日期")))]]))) ∧
    (∀ p : Gfd → Node, transformField f = some p →
      ¬(f.showType = "between" ∧ f.dataType = "datetime") →
      ∃ (k : String) (children : List Node),
        p g = Node.col (some k) (some 8) none none children) := by
  intro f g
  constructor
  · intro hs
    refine ⟨fun hd => ?_, fun hd => ?_, fun hd => ?_⟩ <;>
      simp [transformField, transformBetween, betweenColWrapper, hs, hd]
  · intro p hp hnot
    unfold transformField at hp
    split_ifs at hp with h1 h2 h3 h4 h5
    · obtain rfl := Option.some.inj hp
      exact ⟨f.key, _, rfl⟩
    · obtain rfl := Option.some.inj hp
      exact ⟨f.key, _, rfl⟩
    · obtain rfl := Option.some.inj hp
      exact ⟨f.key, _, rfl⟩
    · obtain rfl := Option.some.inj hp
      exact ⟨f.key, _, rfl⟩
    · unfold transformBetween at hp
      split_ifs at hp with hd1 hd2 hd3
      · obtain rfl := Option.some.inj hp
        exact ⟨f.key ++ "Begin", _, rfl⟩
      · obtain rfl := Option.some.inj hp
        exact ⟨f.key ++ "Begin", _, rfl⟩
      · exact absurd ⟨h5, hd3⟩ hnot
    · obtain rfl := Option.some.inj hp
      unfold transformNormal
      split_ifs
      · exact ⟨f.key, _, rfl⟩
      · exact ⟨f.key, _, rfl⟩
      · exact ⟨f.key, _, rfl⟩
      · exact ⟨f.key, _, rfl⟩

/-- Concrete instantiation of `c7_between_variants` at a `between`/`int`
field with key `age`, under the canonical registration function. -/
theorem c7_between_variants_witness :
    ((transformField (fBetweenInt "age")).map (fun p => p mkTag) =
      some (Node.col (some ("age" ++ "Begin")) (some 8) none none
        [Node.row none none
          [Node.col none none (some 16) none
            [Node.formItem ("age" ++ "Begin") (some "Tage") 15 9
              (mkTag ("age" ++ "Begin")
                (Widget.inputNumber none (some (jsOr none "最小值"))))],
           Node.col none none (some 7) (some 1)
            [Node.formItem ("age" ++ "End") none 10 14
              (mkTag ("age" ++ "End")
                (Widget.inputNumber none (some (jsOr none "最大值"))))]]])) ∧
    (∃ (k : String) (children : List Node),
      SchemaUtils.transformNormal (fText "n") mkTag =
        Node.col (some k) (some 8) none none children) :=
  ⟨((c7_between_variants (fBetweenInt "age") mkTag).1 rfl).1 rfl,
   (c7_between_variants (fText "n") mkTag).2 (SchemaUtils.transformNormal (fText "n")) rfl
     (by decide)⟩

/-- C10: the outer container of a rendered `between`/`datetime` cell always
carries the constant key `"datetimeBetweenDiv"`, independent of the field's
key; hence any two `between`/`datetime` fields — even with distinct keys —
produce containers with identical (duplicate) keys. -/
theorem c10_constant_div_key :
    (∀ (f : FieldDescriptor) (g : Gfd), f.showType = "between" → f.dataType = "datetime" →
      (transformField f).map (fun p => containerKey (p g)) =
        some (some "datetimeBetweenDiv")) ∧
    (∀ (f f' : FieldDescriptor) (g : Gfd), f.showType = "between" →
      f.dataType = "datetime" → f'.showType = "between" → f'.dataType = "datetime" →
      f.key ≠ f'.key →
      (transformField f).map (fun p => containerKey (p g)) =
        (transformField f').map (fun p => containerKey (p g))) := by
  have hmain : ∀ (f : FieldDescriptor) (g : Gfd), f.showType = "between" →
      f.dataType = "datetime" →
      (transformField f).map (fun p => containerKey (p g)) =
        some (some "datetimeBetweenDiv") := by
    intro f g hs hd
    simp [transformField, transformBetween, hs, hd, containerKey]
  refine ⟨hmain, ?_⟩
  intro f f' g hs hd hs' hd' hne
  rw [hmain f g hs hd, hmain f' g hs' hd']

/-- Concrete instantiation of `c10_constant_div_key`: two `between`/`datetime`
fields with distinct keys get the same container key. -/
theorem c10_constant_div_key_witness :
    (transformField (fBetweenDt "start")).map (fun p => containerKey (p mkTag)) =
      some (some "datetimeBetweenDiv") ∧
    (transformField (fBetweenDt "start")).map (fun p => containerKey (p mkTag)) =
      (transformField (fBetweenDt "stop")).map (fun p => containerKey (p mkTag)) :=
  ⟨(c10_constant_div_key.1 (fBetweenDt "start") mkTag rfl rfl),
   (c10_constant_div_key.2 (fBetweenDt "start") (fBetweenDt "stop") mkTag rfl rfl rfl rfl
     (by decide))⟩

theorem string_append_cancel_right {a b c : String} (h : a ++ c = b ++ c) : a = b := by
  have hd : (a ++ c).data = (b ++ c).data := by rw [h]
  rw [String.data_append, String.data_append] at hd
  exact String.ext (List.append_cancel_right hd)

theorem append_begin_ne_append_end (a b : String) : a ++ "Begin" ≠ b ++ "End" := by
  intro h
  have hd : (a ++ "Begin").data = (b ++ "End").data := by rw [h]
  rw [String.data_append, String.data_append] at hd
  have hr : (a.data ++ "Begin".data).reverse = (b.data ++ "End".data).reverse := by rw [hd]
  simp [List.reverse_append] at hr

theorem regKeysOfField_nodup (f : FieldDescriptor) : (regKeysOfField f).Nodup := by
  unfold regKeysOfField
  split
  · simp [append_begin_ne_append_end f.key f.key]
  · simp

theorem regKeysOfField_disjoint (f g : FieldDescriptor) (hk : f.key ≠ g.key)
    (hfg : f.showType ≠ "between" → f.key ≠ g.key ++ "Begin" ∧ f.key ≠ g.key ++ "End")
    (hgf : g.showType ≠ "between" → g.key ≠ f.key ++ "Begin" ∧ g.key ≠ f.key ++ "End") :
    (regKeysOfField f).Disjoint (regKeysOfField g) := by
  unfold regKeysOfField
  split
  · rename_i hf
    split
    · rename_i hg
      intro x hx hy
      simp only [List.mem_cons, List.mem_singleton, List.not_mem_nil, or_false] at hx hy
      rcases hx with rfl | rfl <;> rcases hy with h | h
      · exact hk (string_append_cancel_right h)
      · exact append_begin_ne_append_end f.key g.key h
      · exact append_begin_ne_append_end g.key f.key h.symm
      · exact hk (string_append_cancel_right h)
    · rename_i hg
      intro x hx hy
      simp only [List.mem_cons, List.mem_singleton, List.not_mem_nil, or_false] at hx hy
      obtain ⟨hb, he⟩ := hgf hg
      rcases hx with rfl | rfl
      · exact hb hy.symm
      · exact he hy.symm
  · rename_i hf
    split
    · rename_i hg
      intro x hx hy
      simp only [List.mem_cons, List.mem_singleton, List.not_mem_nil, or_false] at hx hy
      obtain ⟨hb, he⟩ := hfg hf
      rcases hx with rfl
      rcases hy with h | h
      · exact hb h
      · exact he h
    · intro x hx hy
      simp only [List.mem_singleton] at hx hy
      subst hx
      exact hk hy

/-- The spec's promised registration-key list for a schema has no duplicates
when field keys are pairwise distinct and no non-`between` field's key equals
another field's key suffixed `Begin` or `End`. -/
theorem expectedKeys_nodup (schema : List FieldDescriptor)
    (h1 : (schema.map FieldDescriptor.key).Nodup)
    (h2 : ∀ f ∈ schema, f.showType ≠ "between" →
      ∀ g ∈ schema, f.key ≠ g.key ++ "Begin" ∧ f.key ≠ g.key ++ "End") :
    (expectedKeys schema).Nodup := by
  induction schema with
  | nil => simp [expectedKeys]
  | cons f fs ih =>
    have hkey : f.key ∉ fs.map FieldDescriptor.key := (List.nodup_cons.1 (by simpa using h1)).1
    have htail : (fs.map FieldDescriptor.key).Nodup := (List.nodup_cons.1 (by simpa using h1)).2
    have h2tail : ∀ a ∈ fs, a.showType ≠ "between" →
        ∀ g ∈ fs, a.key ≠ g.key ++ "Begin" ∧ a.key ≠ g.key ++ "End" := by
      intro a ha hna g hg
      exact h2 a (List.mem_cons_of_mem f ha) hna g (List.mem_cons_of_mem f hg)
    have hexp : expectedKeys (f :: fs) = regKeysOfField f ++ expectedKeys fs := by
      simp [expectedKeys]
    rw [hexp, List.nodup_append]
    refine ⟨regKeysOfField_nodup f, ih htail h2tail, ?_⟩
    intro x hx hy
    obtain ⟨g, hg, hxg⟩ := List.mem_flatMap.1 hy
    have hk : f.key ≠ g.key := by
      intro h
      exact hkey (h ▸ List.mem_map_of_mem FieldDescriptor.key hg)
    exact regKeysOfField_disjoint f g hk
      (fun hnb => h2 f (List.mem_cons_self f fs) hnb g (List.mem_cons_of_mem f hg))
      (fun hnb => h2 g (List.mem_cons_of_mem f hg) hnb f (List.mem_cons_self f fs))
      hx hxg

namespace SchemaUtils

/-- Under the canonical registration function, the cell a field's producer
renders carries exactly the registration keys the spec promises for that
field. -/
theorem regKeysNode_transformField (f : FieldDescriptor) (p : Gfd → Node)
    (hp : transformField f = some p) : regKeysNode (p mkTag) = regKeysOfField f := by
  unfold transformField at hp
  split_ifs at hp with h1 h2 h3 h4 h5
  · obtain rfl := Option.some.inj hp
    simp [transformSelect, colWrapper, mkTag, regKeysNode, regKeysList, regKeysOfField, h1]
  · obtain rfl := Option.some.inj hp
    simp [transformRadio, colWrapper, mkTag, regKeysNode, regKeysList, regKeysOfField, h2]
  · obtain rfl := Option.some.inj hp
    simp [transformCheckbox, colWrapper, mkTag, regKeysNode, regKeysList, regKeysOfField, h3]
  · obtain rfl := Option.some.inj hp
    simp [transformMultiSelect, colWrapper, mkTag, regKeysNode, regKeysList, regKeysOfField,
      h4]
  · unfold transformBetween at hp
    split_ifs at hp with hd1 hd2 hd3
    · obtain rfl := Option.some.inj hp
      simp [betweenColWrapper, mkTag, regKeysNode, regKeysList, regKeysOfField, h5]
    · obtain rfl := Option.some.inj hp
      simp [betweenColWrapper, mkTag, regKeysNode, regKeysList, regKeysOfField, h5]
    · obtain rfl := Option.some.inj hp
      simp [mkTag, regKeysNode, regKeysList, regKeysOfField, h5]
  · obtain rfl := Option.some.inj hp
    unfold transformNormal
    split_ifs <;>
      simp [colWrapper, mkTag, regKeysNode, regKeysList, regKeysOfField, h1, h2, h3, h4, h5]

theorem renderCols_regKeys (cols : List FieldDescriptor) :
    ∀ ns : List Node, renderCols cols mkTag = some ns →
    regKeysList ns = cols.flatMap regKeysOfField := by
  induction cols with
  | nil =>
    intro ns h
    obtain rfl := Option.some.inj h.symm
    simp [regKeysList]
  | cons f fs ih =>
    intro ns h
    rw [renderCols_cons] at h
    cases hf : transformField f with
    | none => rw [hf] at h; simp at h
    | some p =>
      cases hr : renderCols fs mkTag with
      | none => rw [hf, hr] at h; simp at h
      | some ns' =>
        rw [hf, hr] at h
        obtain rfl := Option.some.inj h.symm
        simp [regKeysList, regKeysNode_transformField f p hf, ih ns' hr]

theorem renderRows_regKeys (rows : List (List FieldDescriptor)) :
    ∀ (i : Nat) (ns : List Node), renderRows i rows mkTag = some ns →
    regKeysList ns = rows.flatten.flatMap regKeysOfField := by
  induction rows with
  | nil =>
    intro i ns h
    obtain rfl := Option.some.inj h.symm
    simp [regKeysList]
  | cons r rs ih =>
    intro i ns h
    rw [renderRows_cons] at h
    cases hc : renderCols r mkTag with
    | none => rw [hc] at h; simp at h
    | some cns =>
      cases hr : renderRows (i + 1) rs mkTag with
      | none => rw [hc, hr] at h; simp at h
      | some rest =>
        rw [hc, hr] at h
        obtain rfl := Option.some.inj h.symm
        simp [regKeysList, regKeysNode, renderCols_regKeys r cns hc, ih (i + 1) rest hr]

end SchemaUtils

/-- C5: when field keys are pairwise distinct and no non-`between` field's key
equals another field's key suffixed `Begin` or `End`, the rendered form passes
to the registration function exactly one key (the field's key) per
non-`between` field and exactly two keys (`key ++ "Begin"`, `key ++ "End"`)
per `between` field, in schema order, with no duplicate keys across the whole
schema. -/
theorem c5_registration_keys (schema : List FieldDescriptor)
    (h1 : (schema.map FieldDescriptor.key).Nodup)
    (h2 : ∀ f ∈ schema, f.showType ≠ "between" →
      ∀ g ∈ schema, f.key ≠ g.key ++ "Begin" ∧ f.key ≠ g.key ++ "End") :
    ∀ n : Node, parse schema mkTag = some n →
      regKeysNode n = expectedKeys schema ∧ (regKeysNode n).Nodup := by
  intro n hn
  simp only [parse] at hn
  cases hr : renderRows 0 (parseRows schema) mkTag with
  | none => rw [hr] at hn; simp at hn
  | some ns =>
    rw [hr] at hn
    simp only [Option.map_some'] at hn
    obtain rfl := Option.some.inj hn.symm
    have hkeys : regKeysNode (Node.form ns) = expectedKeys schema := by
      have h := renderRows_regKeys (parseRows schema) 0 ns hr
      rw [parseRows_flatten] at h
      simpa [regKeysNode, expectedKeys] using h
    exact ⟨hkeys, hkeys ▸ expectedKeys_nodup schema h1 h2⟩

/-- Concrete instantiation of `c5_registration_keys` on the schema
`[fText "name", fBetweenInt "age"]`: one registration key for the text field,
two derived keys for the `between` field, no duplicates. -/
theorem c5_registration_keys_witness :
    regKeysNode c5SampleNode = expectedKeys [fText "name", fBetweenInt "age"] ∧
    (regKeysNode c5SampleNode).Nodup :=
  c5_registration_keys [fText "name", fBetweenInt "age"] (by decide) (by decide)
    c5SampleNode rfl
